import Mathlib

/-!
# Verification of the letterboxd_scraper core algorithms

A shallow embedding, in Lean 4, of the pure algorithmic core of the
`letterboxd_scraper` repository:

* `src/util.py` — `key_max`, `lists_merge`;
* `src/film_info.py` — rating histograms: `__get_bayesian_average`,
  `get_slanted_avg_rating`, `ironic_ratings`, `is_hated`,
  `get_total_ratings`;
* `src/film_search.py` — `FilmSearch.__call__` (paginated collection with
  batches of 25);
* `src/list_maker.py` — `MyList.__merge_entries`, `MyList.remove_duplicates`,
  `format_entries`, and the `MyMasterList.__init__` entry assembly.

Python dicts are modelled as insertion-ordered association lists
(`List (ℕ × ℕ)`), rating histograms as functions `ℕ → ℕ` read on buckets
1..10, Python floats as exact rationals (`ℚ`), and the external
`scipy.stats.beta.ppf` quantile as an abstract function parameter.
-/

namespace LBScraper

/-! ## util.py -/

/-- Python tuple comparison used by `max(zip(d.values(), d.keys()))` in
`util.key_max` (src/util.py lines 35-47): the pair `p = (key, value)` beats
the current best `b = (key, value)` when `(p.value, p.key)` is
lexicographically greater than `(b.value, b.key)`. -/
def key_better (b p : ℕ × ℕ) : Bool :=
  b.2 < p.2 || (b.2 == p.2 && b.1 < p.1)

/-- The `(key, value)` pair maximising `(value, key)` lexicographically,
scanning the association list in insertion order.  The seed `(0, 0)` is
strictly beaten by every pair whose key is at least 1, so on the
histogram-shaped lists used below this computes exactly Python's
`max(zip(d.values(), d.keys()))`. -/
def argmax_pair (d : List (ℕ × ℕ)) : ℕ × ℕ :=
  d.foldl (fun b p => if key_better b p then p else b) (0, 0)

/-- `util.key_max(d)` (the `max_num == 1` path): the key of the pair
maximising `(value, key)`. -/
def key_max (d : List (ℕ × ℕ)) : ℕ :=
  (argmax_pair d).1

/-- `util.key_max(d, 2)`: pop the first maximiser, then take the key
maximising `(value, key)` among the remaining pairs (`d.pop(m)` removes
by key). -/
def key_max_two (d : List (ℕ × ℕ)) : ℕ :=
  key_max (d.eraseP (fun p => p.1 == key_max d))

/-- `util.key_max(d, only_max=True)`: as `key_max`, except that `False`
(modelled as `none`) is returned when the maximal value occurs more than
once in the dict. -/
def key_max_only (d : List (ℕ × ℕ)) : Option ℕ :=
  let m := argmax_pair d
  if 1 < (d.filter (fun p => p.2 == m.2)).length then none else some m.1

/-- `util.lists_merge(lists)` (src/util.py lines 56-62) on its
`unique=False` path — the only path exercised by this repository:
concatenate the sub-lists in argument order. -/
def lists_merge (lists : List (List ℕ)) : List ℕ :=
  lists.flatten

/-! ## list_maker.py: entry merging and deduplication -/

/-- An entry record as posted back to the site: `{'filmId': i}`
(src/list_maker.py `format_entries`, lines 22-26). -/
structure Entry where
  filmId : ℕ
  deriving DecidableEq, Repr

/-- `list_maker.format_entries`: wrap each bare key as a record. -/
def format_entries (entries : List ℕ) : List Entry :=
  entries.map Entry.mk

/-- `MyList.__merge_entries` (src/list_maker.py lines 770-781): flatten the
argument lists with `lists_merge`, then keep only the first occurrence of
each element, preserving first-seen order (the `for i in results: if i in
unique_results: continue; unique_results.append(i)` loop). -/
def merge_entries (entries_lists : List (List ℕ)) : List ℕ :=
  (lists_merge entries_lists).foldl
    (fun acc i => if i ∈ acc then acc else acc ++ [i]) []

/-- Specification-side form of the merge, written from the spec's words:
"flatten all input sequences in argument order, then drop later duplicates
by key (first occurrence wins), preserving first-seen order". -/
def dedup_first : List ℕ → List ℕ
  | [] => []
  | x :: xs => x :: dedup_first (xs.filter (fun i => i ≠ x))
termination_by l => l.length
decreasing_by
  simp only [List.length_cons]
  exact Nat.lt_succ_of_le (List.length_filter_le _ _)

theorem merge_entries_loop_eq (l : List ℕ) :
    ∀ acc : List ℕ,
      l.foldl (fun acc i => if i ∈ acc then acc else acc ++ [i]) acc =
        acc ++ dedup_first (l.filter (fun i => i ∉ acc)) := by
  induction l with
  | nil => intro acc; simp [dedup_first]
  | cons x xs ih =>
    intro acc
    by_cases hx : x ∈ acc
    · simp only [List.foldl_cons, if_pos hx, List.filter_cons,
        decide_eq_true_eq]
      rw [if_neg (by simp [hx])]
      exact ih acc
    · simp only [List.foldl_cons, if_neg hx, List.filter_cons]
      rw [if_pos (by simp [hx])]
      rw [ih (acc ++ [x]), dedup_first]
      have hfil : List.filter (fun i => decide (i ∉ acc ++ [x])) xs =
          List.filter (fun i => decide (i ≠ x))
            (List.filter (fun i => decide (i ∉ acc)) xs) := by
        rw [List.filter_filter]
        apply List.filter_congr
        intro a _
        by_cases hax : a = x <;> by_cases haacc : a ∈ acc <;>
          simp [hax, haacc]
      rw [hfil]
      simp

theorem merge_entries_eq_dedup_first (lists : List (List ℕ)) :
    merge_entries lists = dedup_first (lists_merge lists) := by
  unfold merge_entries
  rw [merge_entries_loop_eq]
  simp

/-! ## film_info.py: rating histograms

`FilmInfo.__get_ratings` (src/film_info.py lines 291-312) produces the dict
`{score+1: quantity for score, quantity in enumerate(score_quantities)}`,
i.e. an insertion-ordered mapping from bucket 1 to bucket 10.  A histogram
is modelled as a function `ℕ → ℕ` read on buckets 1..10. -/

/-- The insertion-ordered dict `{1: h 1, 2: h 2, ..., 10: h 10}` as an
association list, mirroring the comprehension in `__get_ratings`. -/
def ratings_list (h : ℕ → ℕ) : List (ℕ × ℕ) :=
  (List.range 10).map (fun score => (score + 1, h (score + 1)))

/-- `self.ratings.values()` in insertion order. -/
def ratings_values (h : ℕ → ℕ) : List ℕ :=
  (List.range 10).map (fun score => h (score + 1))

/-- `get_total_ratings()` with no argument on a present histogram:
`sum(self.ratings.values())`. -/
def ratings_total (h : ℕ → ℕ) : ℕ :=
  (ratings_values h).sum

/-- `FilmInfo.num_ratings` / `get_total_ratings()`: 0 when the ratings dict
is `None`, else the sum of the bucket counts. -/
def num_ratings (d : Option (ℕ → ℕ)) : ℕ :=
  match d with
  | none => 0
  | some h => ratings_total h

/-- Python `sorted([a, b])` on a two-element list. -/
def sorted_two (a b : ℕ) : List ℕ :=
  if a ≤ b then [a, b] else [b, a]

/-- `FilmInfo.ironic_ratings` (src/film_info.py lines 420-424): `False` for a
missing histogram; otherwise true iff the total is at least 10 and
`sorted([key_max(ratings), key_max(ratings, 2)]) == [1, 10]` (the first
`key_max` call does not mutate the dict copy, so both calls see the full
histogram). -/
def ironic_ratings (d : Option (ℕ → ℕ)) : Bool :=
  match d with
  | none => false
  | some h =>
    decide (10 ≤ ratings_total h) &&
      (sorted_two (key_max (ratings_list h)) (key_max_two (ratings_list h))
        == [1, 10])

/-- `FilmInfo.is_hated` (src/film_info.py lines 436-442) on a present
histogram: false when the total is below the cutoff or the most frequent
bucket is not bucket 1. -/
def is_hated (h : ℕ → ℕ) (cutoff : ℕ) : Bool :=
  if ratings_total h < cutoff then false
  else if key_max (ratings_list h) ≠ 1 then false
  else true

/-! ## Lemmas about the `key_max` fold -/

theorem key_better_true_iff (p q : ℕ × ℕ) :
    key_better p q = true ↔ p.2 < q.2 ∨ (p.2 = q.2 ∧ p.1 < q.1) := by
  simp [key_better]

theorem key_better_false_iff (p q : ℕ × ℕ) :
    key_better p q = false ↔ q.2 < p.2 ∨ (q.2 = p.2 ∧ q.1 ≤ p.1) := by
  simp only [key_better, Bool.or_eq_false_iff, Bool.and_eq_false_iff,
    decide_eq_false_iff_not, beq_eq_false_iff_ne, ne_eq, Nat.not_lt]
  omega

theorem key_better_irrefl (p : ℕ × ℕ) : key_better p p = false := by
  rw [key_better_false_iff]
  omega

theorem key_better_le_trans {a b c : ℕ × ℕ}
    (hab : key_better b a = false) (hbc : key_better c b = false) :
    key_better c a = false := by
  rw [key_better_false_iff] at *
  omega

theorem key_better_asymm {a b : ℕ × ℕ} (h : key_better a b = true) :
    key_better b a = false := by
  rw [key_better_true_iff] at h
  rw [key_better_false_iff]
  omega

theorem argmax_foldl_mem :
    ∀ (l : List (ℕ × ℕ)) (b : ℕ × ℕ),
      l.foldl (fun b p => if key_better b p then p else b) b = b ∨
        l.foldl (fun b p => if key_better b p then p else b) b ∈ l := by
  intro l
  induction l with
  | nil => intro b; left; rfl
  | cons hd tl ih =>
    intro b
    simp only [List.foldl_cons]
    rcases ih (if key_better b hd then hd else b) with h | h
    · rw [h]
      by_cases hb : key_better b hd
      · right; simp [hb]
      · left; simp [hb]
    · right; exact List.mem_cons_of_mem _ h

theorem argmax_foldl_best :
    ∀ (l : List (ℕ × ℕ)) (b p : ℕ × ℕ), p = b ∨ p ∈ l →
      key_better (l.foldl (fun b p => if key_better b p then p else b) b) p
        = false := by
  intro l
  induction l with
  | nil =>
    intro b p hp
    rcases hp with rfl | h
    · exact key_better_irrefl p
    · simp at h
  | cons hd tl ih =>
    intro b p hp
    simp only [List.foldl_cons]
    rcases hp with rfl | hp
    · by_cases hb : key_better p hd
      · simp only [hb, if_true]
        exact key_better_le_trans (key_better_asymm hb) (ih hd hd (Or.inl rfl))
      · simp only [hb, if_false]
        exact ih p p (Or.inl rfl)
    · rcases List.mem_cons.mp hp with rfl | hp
      · by_cases hb : key_better b p
        · simp only [hb, if_true]
          exact ih p p (Or.inl rfl)
        · simp only [hb, if_false]
          exact key_better_le_trans
            (by simpa using hb) (ih b b (Or.inl rfl))
      · exact ih _ p (Or.inr hp)

/-- The bucket keys of a 10-bucket histogram dict, in insertion order. -/
def bucket_keys : List ℕ := [1, 2, 3, 4, 5, 6, 7, 8, 9, 10]

theorem ratings_list_eq_keyed (h : ℕ → ℕ) :
    ratings_list h = bucket_keys.map (fun k => (k, h k)) := rfl

theorem mem_bucket_keys_iff (j : ℕ) :
    j ∈ bucket_keys ↔ 1 ≤ j ∧ j ≤ 10 := by
  constructor
  · intro hj
    rcases (by simpa [bucket_keys] using hj :
      j = 1 ∨ j = 2 ∨ j = 3 ∨ j = 4 ∨ j = 5 ∨ j = 6 ∨ j = 7 ∨ j = 8 ∨
        j = 9 ∨ j = 10) with h | h | h | h | h | h | h | h | h | h <;>
      omega
  · intro hj
    obtain ⟨hj1, hj2⟩ := hj
    interval_cases j <;> simp [bucket_keys]

/-- Characterisation of `argmax_pair` on a keyed list: it returns a pair
`(m, h m)` with `m` drawn from the key list, and no listed pair beats it. -/
theorem argmax_pair_keyed (h : ℕ → ℕ) (K : List ℕ) (hne : K ≠ [])
    (hpos : ∀ k ∈ K, 1 ≤ k) :
    ∃ m ∈ K, argmax_pair (K.map fun k => (k, h k)) = (m, h m) ∧
      ∀ j ∈ K, key_better (m, h m) (j, h j) = false := by
  have hmem : argmax_pair (K.map fun k => (k, h k)) = (0, 0) ∨
      argmax_pair (K.map fun k => (k, h k)) ∈ K.map fun k => (k, h k) :=
    argmax_foldl_mem _ (0, 0)
  have hbest : ∀ p ∈ K.map fun k => (k, h k),
      key_better (argmax_pair (K.map fun k => (k, h k))) p = false :=
    fun p hp => argmax_foldl_best _ (0, 0) p (Or.inr hp)
  rcases hmem with hz | hm
  · exfalso
    obtain ⟨k0, hk0⟩ : ∃ k0, k0 ∈ K := by
      cases K with
      | nil => exact absurd rfl hne
      | cons a l => exact ⟨a, List.mem_cons_self a l⟩
    have h1 := hbest (k0, h k0) (List.mem_map_of_mem _ hk0)
    rw [hz, key_better_false_iff] at h1
    have := hpos k0 hk0
    omega
  · rcases List.mem_map.mp hm with ⟨m, hmK, hme⟩
    refine ⟨m, hmK, hme.symm, fun j hj => ?_⟩
    have h1 := hbest (j, h j) (List.mem_map_of_mem _ hj)
    rwa [← hme] at h1

/-- If key `t` beats every other listed key, then `argmax_pair` returns
exactly `(t, h t)`. -/
theorem argmax_pair_eq_of_dominant (h : ℕ → ℕ) (K : List ℕ) (t : ℕ)
    (hne : K ≠ []) (hpos : ∀ k ∈ K, 1 ≤ k) (ht : t ∈ K)
    (hdom : ∀ j ∈ K, j ≠ t → key_better (j, h j) (t, h t) = true) :
    argmax_pair (K.map fun k => (k, h k)) = (t, h t) := by
  obtain ⟨m, hmK, hme, hbest⟩ := argmax_pair_keyed h K hne hpos
  by_cases hmt : m = t
  · rw [hme, hmt]
  · have h1 := hbest t ht
    have h2 := hdom m hmK hmt
    rw [key_better_false_iff] at h1
    rw [key_better_true_iff] at h2
    omega

theorem bucket_keys_ne_nil : bucket_keys ≠ [] := by simp [bucket_keys]

theorem bucket_keys_pos : ∀ k ∈ bucket_keys, 1 ≤ k := by
  intro k hk
  exact ((mem_bucket_keys_iff k).mp hk).1

/-- `key_max` on a 10-bucket histogram returns a bucket in 1..10 whose count
is maximal, and among tied maximal buckets the one with the **greatest**
bucket number. -/
theorem key_max_greatest_tied (h : ℕ → ℕ) :
    (1 ≤ key_max (ratings_list h) ∧ key_max (ratings_list h) ≤ 10) ∧
      ∀ j, 1 ≤ j → j ≤ 10 →
        h j ≤ h (key_max (ratings_list h)) ∧
          (h j = h (key_max (ratings_list h)) → j ≤ key_max (ratings_list h)) := by
  rw [ratings_list_eq_keyed]
  obtain ⟨m, hmK, hme, hbest⟩ :=
    argmax_pair_keyed h bucket_keys bucket_keys_ne_nil bucket_keys_pos
  have hkm : key_max (bucket_keys.map fun k => (k, h k)) = m := by
    unfold key_max
    rw [hme]
  rw [hkm]
  have hm10 := (mem_bucket_keys_iff m).mp hmK
  refine ⟨hm10, fun j hj1 hj2 => ?_⟩
  have hb := hbest j ((mem_bucket_keys_iff j).mpr ⟨hj1, hj2⟩)
  rw [key_better_false_iff] at hb
  dsimp only at hb
  exact ⟨by omega, fun hv => by omega⟩

theorem ironic_eq (h : ℕ → ℕ) :
    ironic_ratings (some h) = true ↔
      10 ≤ ratings_total h ∧
        sorted_two (key_max (ratings_list h)) (key_max_two (ratings_list h))
          = [1, 10] := by
  simp [ironic_ratings]

theorem sorted_two_eq_iff (a b : ℕ) :
    sorted_two a b = [1, 10] ↔ (a = 1 ∧ b = 10) ∨ (a = 10 ∧ b = 1) := by
  unfold sorted_two
  split_ifs with hab <;> simp <;> omega

/-- The characterisation of `sorted([key_max(d), key_max(d, 2)]) == [1,10]`
on a 10-bucket histogram: every middle bucket must be strictly less frequent
than bucket 1 and at most as frequent as bucket 10 (the asymmetry is the
largest-key tie-breaking of `key_max`). -/
theorem key_max_pair_extremes_iff (h : ℕ → ℕ) :
    sorted_two (key_max (ratings_list h)) (key_max_two (ratings_list h))
        = [1, 10] ↔
      ∀ j ∈ Finset.Icc 2 9, h j < h 1 ∧ h j ≤ h 10 := by
  rw [sorted_two_eq_iff]
  have herase1 : ((bucket_keys.map fun k => (k, h k)).eraseP
      (fun p => p.1 == 1)) =
      ([2, 3, 4, 5, 6, 7, 8, 9, 10].map fun k => (k, h k)) := rfl
  have herase10 : ((bucket_keys.map fun k => (k, h k)).eraseP
      (fun p => p.1 == 10)) =
      ([1, 2, 3, 4, 5, 6, 7, 8, 9].map fun k => (k, h k)) := rfl
  constructor
  · rintro (⟨hm1, hm2⟩ | ⟨hm1, hm2⟩) <;>
      intro j hj <;> rw [Finset.mem_Icc] at hj
    · -- key_max = 1, key_max_two = 10
      obtain ⟨m, hmK, hme, hbest⟩ :=
        argmax_pair_keyed h bucket_keys bucket_keys_ne_nil bucket_keys_pos
      rw [ratings_list_eq_keyed] at hm1
      have hm : m = 1 := by
        rw [show key_max (bucket_keys.map fun k => (k, h k)) = m from by
          unfold key_max; rw [hme]] at hm1
        exact hm1.symm ▸ rfl
      subst hm
      have hlt : h j < h 1 := by
        have hb := hbest j ((mem_bucket_keys_iff j).mpr ⟨by omega, by omega⟩)
        rw [key_better_false_iff] at hb
        dsimp only at hb
        omega
      refine ⟨hlt, ?_⟩
      -- now the second maximiser
      unfold key_max_two at hm2
      rw [ratings_list_eq_keyed, hm1, herase1] at hm2
      obtain ⟨m2, hm2K, hm2e, hbest2⟩ :=
        argmax_pair_keyed h [2, 3, 4, 5, 6, 7, 8, 9, 10] (by simp)
          (by intro k hk; rcases (by simpa using hk :
            k = 2 ∨ k = 3 ∨ k = 4 ∨ k = 5 ∨ k = 6 ∨ k = 7 ∨ k = 8 ∨
              k = 9 ∨ k = 10) with h | h | h | h | h | h | h | h | h <;>
            omega)
      have hm2' : m2 = 10 := by
        rw [show key_max ([2, 3, 4, 5, 6, 7, 8, 9, 10].map fun k => (k, h k))
            = m2 from by unfold key_max; rw [hm2e]] at hm2
        exact hm2.symm ▸ rfl
      subst hm2'
      have hb2 := hbest2 j (by
        have : j = 2 ∨ j = 3 ∨ j = 4 ∨ j = 5 ∨ j = 6 ∨ j = 7 ∨ j = 8 ∨
            j = 9 := by omega
        rcases this with h | h | h | h | h | h | h | h <;> subst h <;> simp)
      rw [key_better_false_iff] at hb2
      dsimp only at hb2
      omega
    · -- key_max = 10, key_max_two = 1
      obtain ⟨m, hmK, hme, hbest⟩ :=
        argmax_pair_keyed h bucket_keys bucket_keys_ne_nil bucket_keys_pos
      rw [ratings_list_eq_keyed] at hm1
      have hm : m = 10 := by
        rw [show key_max (bucket_keys.map fun k => (k, h k)) = m from by
          unfold key_max; rw [hme]] at hm1
        exact hm1.symm ▸ rfl
      subst hm
      have hle : h j ≤ h 10 := by
        have hb := hbest j ((mem_bucket_keys_iff j).mpr ⟨by omega, by omega⟩)
        rw [key_better_false_iff] at hb
        dsimp only at hb
        omega
      refine ⟨?_, hle⟩
      unfold key_max_two at hm2
      rw [ratings_list_eq_keyed, hm1, herase10] at hm2
      obtain ⟨m2, hm2K, hm2e, hbest2⟩ :=
        argmax_pair_keyed h [1, 2, 3, 4, 5, 6, 7, 8, 9] (by simp)
          (by intro k hk; rcases (by simpa using hk :
            k = 1 ∨ k = 2 ∨ k = 3 ∨ k = 4 ∨ k = 5 ∨ k = 6 ∨ k = 7 ∨
              k = 8 ∨ k = 9) with h | h | h | h | h | h | h | h | h <;>
            omega)
      have hm2' : m2 = 1 := by
        rw [show key_max ([1, 2, 3, 4, 5, 6, 7, 8, 9].map fun k => (k, h k))
            = m2 from by unfold key_max; rw [hm2e]] at hm2
        exact hm2.symm ▸ rfl
      subst hm2'
      have hb2 := hbest2 j (by
        have : j = 2 ∨ j = 3 ∨ j = 4 ∨ j = 5 ∨ j = 6 ∨ j = 7 ∨ j = 8 ∨
            j = 9 := by omega
        rcases this with h | h | h | h | h | h | h | h <;> subst h <;> simp)
      rw [key_better_false_iff] at hb2
      dsimp only at hb2
      omega
  · intro hchar
    have hmid : ∀ j, 2 ≤ j → j ≤ 9 → h j < h 1 ∧ h j ≤ h 10 := by
      intro j h1 h2
      exact hchar j (Finset.mem_Icc.mpr ⟨h1, h2⟩)
    by_cases hc : h 1 ≤ h 10
    · -- bucket 10 is the (largest-key) maximiser, then bucket 1
      right
      have hkm : key_max (ratings_list h) = 10 := by
        rw [ratings_list_eq_keyed]
        unfold key_max
        rw [argmax_pair_eq_of_dominant h bucket_keys 10 bucket_keys_ne_nil
          bucket_keys_pos (by simp [bucket_keys])
          (by
            intro j hj hj10
            have hj' := (mem_bucket_keys_iff j).mp hj
            rw [key_better_true_iff]
            dsimp only
            rcases Nat.lt_or_ge j 2 with hj2 | hj2
            · have : j = 1 := by omega
              subst this
              omega
            · have := hmid j (by omega) (by omega)
              omega)]
      refine ⟨hkm, ?_⟩
      unfold key_max_two
      rw [ratings_list_eq_keyed] at hkm ⊢
      rw [hkm, herase10]
      unfold key_max
      rw [argmax_pair_eq_of_dominant h [1, 2, 3, 4, 5, 6, 7, 8, 9] 1
        (by simp)
        (by intro k hk; rcases (by simpa using hk :
          k = 1 ∨ k = 2 ∨ k = 3 ∨ k = 4 ∨ k = 5 ∨ k = 6 ∨ k = 7 ∨
            k = 8 ∨ k = 9) with h | h | h | h | h | h | h | h | h <;>
          omega)
        (by simp)
        (by
          intro j hj hj1
          have hj' : 1 ≤ j ∧ j ≤ 9 := by
            rcases (by simpa using hj :
              j = 1 ∨ j = 2 ∨ j = 3 ∨ j = 4 ∨ j = 5 ∨ j = 6 ∨ j = 7 ∨
                j = 8 ∨ j = 9) with h | h | h | h | h | h | h | h | h <;>
              omega
          have := hmid j (by omega) (by omega)
          rw [key_better_true_iff]
          dsimp only
          omega)]
    · -- bucket 1 is the strict maximiser, then bucket 10
      left
      have hkm : key_max (ratings_list h) = 1 := by
        rw [ratings_list_eq_keyed]
        unfold key_max
        rw [argmax_pair_eq_of_dominant h bucket_keys 1 bucket_keys_ne_nil
          bucket_keys_pos (by simp [bucket_keys])
          (by
            intro j hj hj1
            have hj' := (mem_bucket_keys_iff j).mp hj
            rw [key_better_true_iff]
            dsimp only
            rcases Nat.lt_or_ge j 10 with hj10 | hj10
            · have := hmid j (by omega) (by omega)
              omega
            · have : j = 10 := by omega
              subst this
              omega)]
      refine ⟨hkm, ?_⟩
      unfold key_max_two
      rw [ratings_list_eq_keyed] at hkm ⊢
      rw [hkm, herase1]
      unfold key_max
      rw [argmax_pair_eq_of_dominant h [2, 3, 4, 5, 6, 7, 8, 9, 10] 10
        (by simp)
        (by intro k hk; rcases (by simpa using hk :
          k = 2 ∨ k = 3 ∨ k = 4 ∨ k = 5 ∨ k = 6 ∨ k = 7 ∨ k = 8 ∨
            k = 9 ∨ k = 10) with h | h | h | h | h | h | h | h | h <;>
          omega)
        (by simp)
        (by
          intro j hj hj10
          have hj' : 2 ≤ j ∧ j ≤ 9 := by
            rcases (by simpa using hj :
              j = 2 ∨ j = 3 ∨ j = 4 ∨ j = 5 ∨ j = 6 ∨ j = 7 ∨ j = 8 ∨
                j = 9 ∨ j = 10) with h | h | h | h | h | h | h | h | h <;>
              omega
          have := hmid j (by omega) (by omega)
          rw [key_better_true_iff]
          dsimp only
          omega)]

/-! ## Example histograms used as concrete test inputs -/

/-- Histogram with buckets 1 and 2 tied at the maximal count 5. -/
def tie_histogram : ℕ → ℕ := fun n => if n ≤ 2 then 5 else 0

/-- Histogram `{1: 20, 10: 20, others: 0}`. -/
def ironic_yes_histogram : ℕ → ℕ := fun n => if n = 1 ∨ n = 10 then 20 else 0

/-- Histogram `{1: 20, 2: 20, 10: 5, others: 0}`. -/
def ironic_no_histogram : ℕ → ℕ :=
  fun n => if n = 1 ∨ n = 2 then 20 else if n = 10 then 5 else 0

/-! ## Claim C1 -/

/-- C1: `MyList.__merge_entries` — the unique-merging operation actually used
by the engine — flattens its input collections in argument order and then
drops later duplicates (first occurrence of each key wins, first-seen order
preserved), which is exactly the spec-side `dedup_first` of the flattening;
in particular `merge([[1,2,3],[3,4]]) = [1,2,3,4]`. -/
theorem claim_C1_merge_first_occurrence :
    (∀ lists : List (List ℕ),
      merge_entries lists = dedup_first (lists_merge lists)) ∧
    merge_entries [[1, 2, 3], [3, 4]] = [1, 2, 3, 4] :=
  ⟨merge_entries_eq_dedup_first, by decide⟩

/-! ## Claim C2 -/

/-- C2 (counterexample): on the histogram `{1: 5, 2: 5, others: 0}` the
buckets 1 and 2 tie for the maximal count, yet `key_max` selects bucket 2 —
not the first-encountered (lowest-numbered) tied bucket 1 that the claim
predicts — and consequently `is_hated` with cutoff 5 is `false` even though
under the claimed tie-breaking the most frequent bucket would be 1. -/
theorem claim_C2_counterexample :
    tie_histogram 1 = 5 ∧ tie_histogram 2 = 5 ∧
      key_max (ratings_list tie_histogram) = 2 ∧
      is_hated tie_histogram 5 = false := by
  decide

/-- C2 (amended): for every histogram, the most-frequent-bucket selection
`key_max` used by the classification predicates returns a bucket of maximal
count, and among tied maximal buckets the **highest-numbered** one (the
last-encountered in ascending bucket order), not the first-encountered. -/
theorem claim_C2_keymax_tiebreak_greatest (h : ℕ → ℕ) :
    (1 ≤ key_max (ratings_list h) ∧ key_max (ratings_list h) ≤ 10) ∧
      ∀ j, 1 ≤ j → j ≤ 10 →
        h j ≤ h (key_max (ratings_list h)) ∧
          (h j = h (key_max (ratings_list h)) →
            j ≤ key_max (ratings_list h)) :=
  key_max_greatest_tied h

/-- Witness for C2 (amended), at the tied histogram and bucket `j = 1`. -/
theorem claim_C2_witness :
    tie_histogram 1 ≤ tie_histogram (key_max (ratings_list tie_histogram)) :=
  (((claim_C2_keymax_tiebreak_greatest tie_histogram).2 1
    (by decide) (by decide))).1

/-! ## Claim C5 -/

/-- C5: `ironic_ratings` is true iff the total count is at least 10 and the
two most-frequent buckets are exactly buckets 1 and 10 (under `key_max`'s
tie-breaking this means each middle bucket is strictly less frequent than
bucket 1 and at most as frequent as bucket 10); in particular it is true on
`{1: 20, 10: 20}` and false on `{1: 20, 2: 20, 10: 5}`. -/
theorem claim_C5_ironic_iff :
    (∀ h : ℕ → ℕ,
      ironic_ratings (some h) = true ↔
        10 ≤ ratings_total h ∧
          ∀ j ∈ Finset.Icc 2 9, h j < h 1 ∧ h j ≤ h 10) ∧
    ironic_ratings (some ironic_yes_histogram) = true ∧
    ironic_ratings (some ironic_no_histogram) = false := by
  refine ⟨fun h => ?_, by decide, by decide⟩
  rw [ironic_eq h, key_max_pair_extremes_iff h]

/-- Witness for C5, instantiating the equivalence at `{1: 20, 10: 20}`. -/
theorem claim_C5_witness :
    ironic_ratings (some ironic_yes_histogram) = true :=
  (claim_C5_ironic_iff.1 ironic_yes_histogram).mpr (by decide)

/-! ## film_info.py: `__get_bayesian_average` (src/film_info.py lines 360-373)

`scipy.stats.beta.ppf` — the inverse regularized incomplete beta function —
is external to the repository, so it enters the embedding as an abstract
function parameter `ibeta : ℚ → ℚ → ℚ → ℚ` (quantile, alpha, beta).
Python float arithmetic is modelled exactly over `ℚ`. -/

/-- The list `[ratings[n] * ((n-1)/9) for n in range(1, 11)]`. -/
def bayes_up_terms (h : ℕ → ℕ) : List ℚ :=
  (List.range 10).map (fun k => (h (k + 1) : ℚ) * ((k : ℚ) / 9))

/-- `up[-1] /= 1.5`: divide the last element of the list by `x`. -/
def divide_last (l : List ℚ) (x : ℚ) : List ℚ :=
  match l.getLast? with
  | none => l
  | some a => l.dropLast ++ [a / x]

/-- `up = sum(up)` after the last-element adjustment. -/
def bayes_up (h : ℕ → ℕ) : ℚ := (divide_last (bayes_up_terms h) 1.5).sum

/-- The list `[ratings[n] * ((9-(n-1))/9) for n in range(1, 11)]`. -/
def bayes_down_terms (h : ℕ → ℕ) : List ℚ :=
  (List.range 10).map (fun k => (h (k + 1) : ℚ) * (((9 : ℚ) - k) / 9))

/-- `down[0] *= 1.5`: multiply the head of the list by `x`. -/
def scale_head (l : List ℚ) (x : ℚ) : List ℚ :=
  match l with
  | [] => []
  | a :: t => (a * x) :: t

/-- `down = sum(down)` after the head adjustment. -/
def bayes_down (h : ℕ → ℕ) : ℚ := (scale_head (bayes_down_terms h) 1.5).sum

/-- Python `any(d.values())` on the ratings dict. -/
def any_ratings (h : ℕ → ℕ) : Bool :=
  (ratings_values h).any (fun c => decide (c ≠ 0))

/-- `FilmInfo.__get_bayesian_average(d, a0, no_rating_fallback)`: the
fallback for a `None` or all-zero histogram, otherwise
`beta.ppf(0.05, up + a0, down + a0) * 4.5 + 0.5`. -/
def get_bayesian_average (ibeta : ℚ → ℚ → ℚ → ℚ) (d : Option (ℕ → ℕ))
    (a0 fallback : ℚ) : ℚ :=
  match d with
  | none => fallback
  | some h =>
    if any_ratings h then
      ibeta 0.05 (bayes_up h + a0) (bayes_down h + a0) * 4.5 + 0.5
    else fallback

/-- Spec-side pseudo-successes, from the spec's words: "up = Σ count[n] *
(n-1)/9 for n=1..10, with the top bucket (n=10) down-weighted by dividing
by 1.5 before summing". -/
def spec_up (h : ℕ → ℕ) : ℚ :=
  (∑ n ∈ Finset.Icc (1 : ℕ) 9, (h n : ℚ) * (((n : ℚ) - 1) / 9))
    + ((h 10 : ℚ) * (((10 : ℚ) - 1) / 9)) / 1.5

/-- Spec-side pseudo-failures, from the spec's words: "down = Σ count[n] *
(9-(n-1))/9, with the bottom bucket (n=1) up-weighted ×1.5 before
summing". -/
def spec_down (h : ℕ → ℕ) : ℚ :=
  ((h 1 : ℚ) * (((9 : ℚ) - ((1 : ℚ) - 1)) / 9)) * 1.5
    + ∑ n ∈ Finset.Icc (2 : ℕ) 10, (h n : ℚ) * (((9 : ℚ) - ((n : ℚ) - 1)) / 9)

theorem sum_Icc_one_nine (f : ℕ → ℚ) :
    ∑ n ∈ Finset.Icc (1 : ℕ) 9, f n =
      f 1 + f 2 + f 3 + f 4 + f 5 + f 6 + f 7 + f 8 + f 9 := by
  have he : Finset.Icc (1 : ℕ) 9 = ({1, 2, 3, 4, 5, 6, 7, 8, 9} : Finset ℕ) := by
    decide
  rw [he, Finset.sum_insert (by decide), Finset.sum_insert (by decide),
    Finset.sum_insert (by decide), Finset.sum_insert (by decide),
    Finset.sum_insert (by decide), Finset.sum_insert (by decide),
    Finset.sum_insert (by decide), Finset.sum_insert (by decide),
    Finset.sum_singleton]
  ring

theorem sum_Icc_two_ten (f : ℕ → ℚ) :
    ∑ n ∈ Finset.Icc (2 : ℕ) 10, f n =
      f 2 + f 3 + f 4 + f 5 + f 6 + f 7 + f 8 + f 9 + f 10 := by
  have he : Finset.Icc (2 : ℕ) 10 =
      ({2, 3, 4, 5, 6, 7, 8, 9, 10} : Finset ℕ) := by
    decide
  rw [he, Finset.sum_insert (by decide), Finset.sum_insert (by decide),
    Finset.sum_insert (by decide), Finset.sum_insert (by decide),
    Finset.sum_insert (by decide), Finset.sum_insert (by decide),
    Finset.sum_insert (by decide), Finset.sum_insert (by decide),
    Finset.sum_singleton]
  ring

theorem bayes_up_eq_spec_up (h : ℕ → ℕ) : bayes_up h = spec_up h := by
  rw [spec_up, sum_Icc_one_nine]
  simp [bayes_up, bayes_up_terms, divide_last, List.range_succ]
  ring

theorem bayes_down_eq_spec_down (h : ℕ → ℕ) : bayes_down h = spec_down h := by
  rw [spec_down, sum_Icc_two_ten]
  simp [bayes_down, bayes_down_terms, scale_head, List.range_succ]
  try ring

theorem any_ratings_eq_false_iff (h : ℕ → ℕ) :
    any_ratings h = false ↔ ratings_total h = 0 := by
  simp [any_ratings, ratings_values, ratings_total, List.range_succ]

theorem any_ratings_eq_true_iff (h : ℕ → ℕ) :
    any_ratings h = true ↔ ratings_total h ≠ 0 := by
  constructor
  · intro ht h0
    rw [(any_ratings_eq_false_iff h).mpr h0] at ht
    exact Bool.false_ne_true ht
  · intro hne
    cases hb : any_ratings h with
    | false => exact absurd ((any_ratings_eq_false_iff h).mp hb) hne
    | true => rfl

theorem bayes_up_nonneg (h : ℕ → ℕ) : 0 ≤ bayes_up h := by
  rw [bayes_up_eq_spec_up, spec_up, sum_Icc_one_nine]
  have : ∀ n : ℕ, (0 : ℚ) ≤ (h n : ℚ) := fun n => Nat.cast_nonneg _
  norm_num
  nlinarith [this 2, this 3, this 4, this 5, this 6, this 7, this 8,
    this 9, this 10]

theorem bayes_down_nonneg (h : ℕ → ℕ) : 0 ≤ bayes_down h := by
  rw [bayes_down_eq_spec_down, spec_down, sum_Icc_two_ten]
  have : ∀ n : ℕ, (0 : ℚ) ≤ (h n : ℚ) := fun n => Nat.cast_nonneg _
  norm_num
  nlinarith [this 1, this 2, this 3, this 4, this 5, this 6, this 7,
    this 8, this 9]

/-- Move `c` ratings from bucket `i` to bucket `j` of a histogram. -/
def shift_histogram (h : ℕ → ℕ) (i j c : ℕ) : ℕ → ℕ :=
  fun n => if n = i then h n - c else if n = j then h n + c else h n

set_option maxHeartbeats 1000000 in
theorem ratings_total_shift (h : ℕ → ℕ) (i j c : ℕ)
    (hi : 1 ≤ i) (hij : i < j) (hj : j ≤ 10) (hc : c ≤ h i) :
    ratings_total (shift_histogram h i j c) = ratings_total h := by
  have hi9 : i ≤ 9 := by omega
  simp only [ratings_total, ratings_values, List.range_succ]
  interval_cases i <;> interval_cases j <;>
    simp_all [shift_histogram] <;> omega

set_option maxHeartbeats 2000000 in
theorem bayes_up_shift (h : ℕ → ℕ) (i j c : ℕ)
    (hi : 1 ≤ i) (hij : i < j) (hj : j ≤ 10) (hw : j ≤ 9 ∨ i ≤ 7)
    (hc : c ≤ h i) :
    bayes_up h ≤ bayes_up (shift_histogram h i j c) := by
  have hi9 : i ≤ 9 := by omega
  have hc0 : (0 : ℚ) ≤ (c : ℚ) := Nat.cast_nonneg c
  rw [bayes_up_eq_spec_up, bayes_up_eq_spec_up, spec_up, spec_up,
    sum_Icc_one_nine, sum_Icc_one_nine]
  interval_cases i <;> interval_cases j <;>
    first
      | omega
      | (simp only [shift_histogram, reduceIte]
         rw [Nat.cast_sub hc]
         push_cast
         ring_nf
         linarith)

set_option maxHeartbeats 2000000 in
theorem bayes_down_shift (h : ℕ → ℕ) (i j c : ℕ)
    (hi : 1 ≤ i) (hij : i < j) (hj : j ≤ 10) (hc : c ≤ h i) :
    bayes_down (shift_histogram h i j c) ≤ bayes_down h := by
  have hi9 : i ≤ 9 := by omega
  have hc0 : (0 : ℚ) ≤ (c : ℚ) := Nat.cast_nonneg c
  rw [bayes_down_eq_spec_down, bayes_down_eq_spec_down, spec_down,
    spec_down, sum_Icc_two_ten, sum_Icc_two_ten]
  interval_cases i <;> interval_cases j <;>
    first
      | omega
      | (simp only [shift_histogram, reduceIte]
         rw [Nat.cast_sub hc]
         push_cast
         ring_nf
         linarith)

/-- The posterior mean `a / (a + b)` of a Beta(a, b) distribution: a concrete
stand-in for the abstract quantile parameter which, like the real
`beta.ppf(0.05, ., .)`, is nondecreasing in `a` and nonincreasing in `b` on
positive arguments. -/
def ppf_mean : ℚ → ℚ → ℚ → ℚ := fun _ a b => a / (a + b)

/-- Histogram `{9: 9, others: 0}`: nine ratings, all 4.5 stars. -/
def nine_at_nine : ℕ → ℕ := fun n => if n = 9 then 9 else 0

/-! ## Claim C3 -/

/-- C3: for a `None` or all-zero histogram `__get_bayesian_average` returns
the fallback 2.75 without raising; otherwise it returns
`ibeta(0.05, up + 9, down + 9) * 4.5 + 0.5` where `up`/`down` are exactly
the spec's pseudo-success/pseudo-failure sums (`spec_up`/`spec_down`, with
the n=10 up-term divided by 1.5 and the n=1 down-term multiplied by 1.5). -/
theorem claim_C3_bayesian_estimate :
    ∀ (ibeta : ℚ → ℚ → ℚ → ℚ) (h : ℕ → ℕ),
      get_bayesian_average ibeta none 9 2.75 = 2.75 ∧
        (ratings_total h = 0 →
          get_bayesian_average ibeta (some h) 9 2.75 = 2.75) ∧
        (ratings_total h ≠ 0 →
          get_bayesian_average ibeta (some h) 9 2.75 =
            ibeta 0.05 (spec_up h + 9) (spec_down h + 9) * 4.5 + 0.5) := by
  intro ibeta h
  refine ⟨rfl, fun h0 => ?_, fun hne => ?_⟩
  · have hz : any_ratings h = false := (any_ratings_eq_false_iff h).mpr h0
    simp [get_bayesian_average, hz]
  · have hz : any_ratings h = true := (any_ratings_eq_true_iff h).mpr hne
    simp only [get_bayesian_average, hz, if_true]
    rw [bayes_up_eq_spec_up, bayes_down_eq_spec_down]

/-- Witness for C3, at `{1: 5, 2: 5}` with the Beta-mean instantiation. -/
theorem claim_C3_witness :
    get_bayesian_average ppf_mean (some tie_histogram) 9 2.75 =
      ppf_mean 0.05 (spec_up tie_histogram + 9) (spec_down tie_histogram + 9)
        * 4.5 + 0.5 :=
  (claim_C3_bayesian_estimate ppf_mean tie_histogram).2.2 (by decide)

/-! ## Claim C4 -/

/-- C4 (counterexample): moving all nine ratings from bucket 9 (4.5 stars)
up to bucket 10 (5 stars) — a shift of mass from a lower-score bucket to a
higher-score bucket at fixed total — strictly *decreases* the Bayesian
estimate under the monotone Beta-posterior-mean instantiation of the
abstract quantile, because the top bucket's up-weight `(9/9)/1.5 = 2/3` is
smaller than bucket 9's `8/9`.  (Numerically the same failure occurs with
scipy's `beta.ppf(0.05, ., .)`: up drops from 8 to 6 while down drops from
1 to 0, moving the posterior from Beta(17, 10) to the wider Beta(15, 9),
whose 5th percentile is lower — the final estimate falls from ≈2.63 to
≈2.57.) -/
theorem claim_C4_counterexample :
    ratings_total (shift_histogram nine_at_nine 9 10 9) =
        ratings_total nine_at_nine ∧
      get_bayesian_average ppf_mean
          (some (shift_histogram nine_at_nine 9 10 9)) 9 2.75 <
        get_bayesian_average ppf_mean (some nine_at_nine) 9 2.75 := by
  constructor
  · decide
  · norm_num [get_bayesian_average, any_ratings, ratings_values, bayes_up,
      bayes_up_terms, divide_last, bayes_down, bayes_down_terms, scale_head,
      List.range_succ, nine_at_nine, shift_histogram, ppf_mean]

/-- C4 (amended): for every quantile function that is nondecreasing in its
second argument and nonincreasing in its third (as the Beta 5th-percentile
is), the Bayesian estimate is monotonically non-decreasing under moving
count mass from a lower bucket `i` to a higher bucket `j` at fixed total,
*provided* the shift is not from bucket 8 or 9 into bucket 10 (where the
1.5 down-weighting of the top bucket makes the up-weight decrease). -/
theorem claim_C4_bayes_shift_monotone (ibeta : ℚ → ℚ → ℚ → ℚ)
    (hmono : ∀ a b a2 b2 : ℚ, 0 ≤ a → 0 ≤ b2 → a ≤ a2 → b2 ≤ b →
      ibeta 0.05 (a + 9) (b + 9) ≤ ibeta 0.05 (a2 + 9) (b2 + 9))
    (h : ℕ → ℕ) (i j c : ℕ) (hi : 1 ≤ i) (hij : i < j) (hj : j ≤ 10)
    (hw : j ≤ 9 ∨ i ≤ 7) (hc : c ≤ h i) :
    get_bayesian_average ibeta (some h) 9 2.75 ≤
      get_bayesian_average ibeta (some (shift_histogram h i j c)) 9 2.75 := by
  have htot := ratings_total_shift h i j c hi hij hj hc
  simp only [get_bayesian_average]
  by_cases hz0 : ratings_total h = 0
  · have hz1 : any_ratings h = false := (any_ratings_eq_false_iff h).mpr hz0
    have hz2 : any_ratings (shift_histogram h i j c) = false :=
      (any_ratings_eq_false_iff _).mpr (htot.trans hz0)
    rw [if_neg (by simp [hz1]), if_neg (by simp [hz2])]
  · have hz : any_ratings h = true := (any_ratings_eq_true_iff h).mpr hz0
    have hz2 : any_ratings (shift_histogram h i j c) = true :=
      (any_ratings_eq_true_iff _).mpr (by rw [htot]; exact hz0)
    rw [if_pos hz, if_pos hz2]
    have hib := hmono (bayes_up h) (bayes_down h)
      (bayes_up (shift_histogram h i j c))
      (bayes_down (shift_histogram h i j c))
      (bayes_up_nonneg h) (bayes_down_nonneg _)
      (bayes_up_shift h i j c hi hij hj hw hc)
      (bayes_down_shift h i j c hi hij hj hc)
    linarith

/-- Witness for C4 (amended): the Beta posterior mean satisfies the
monotonicity hypotheses, and the estimate does not decrease when 3 ratings
move from bucket 1 to bucket 5 of `{1: 5, 2: 5}`. -/
theorem claim_C4_witness :
    get_bayesian_average ppf_mean (some tie_histogram) 9 2.75 ≤
      get_bayesian_average ppf_mean
        (some (shift_histogram tie_histogram 1 5 3)) 9 2.75 :=
  claim_C4_bayes_shift_monotone ppf_mean
    (by
      intro a b a2 b2 ha hb2 ha2 hb
      simp only [ppf_mean]
      rw [div_le_div_iff₀ (by linarith) (by linarith)]
      nlinarith [mul_le_mul ha2 hb hb2 (by linarith : (0 : ℚ) ≤ a2)])
    tie_histogram 1 5 3 (by decide) (by decide) (by decide)
    (Or.inl (by decide)) (by decide)

/-! ## film_info.py: `get_slanted_avg_rating` (src/film_info.py 408-418) -/

/-- The ratings dict copy after the slanting mutations
`ratings[1] *= 1.2; ratings[2] *= 1.05; ratings[10] *= 0.75`. -/
def slanted_ratings (h : ℕ → ℕ) : ℕ → ℚ :=
  fun n =>
    if n = 1 then (h 1 : ℚ) * 1.2
    else if n = 2 then (h 2 : ℚ) * 1.05
    else if n = 10 then (h 10 : ℚ) * 0.75
    else (h n : ℚ)

/-- `FilmInfo.get_slanted_avg_rating(no_rating_fallback, cutoff)`: fallback
below the cutoff, else
`sum(s*q for s, q in ratings.items()) / sum(ratings.values()) * 0.5` on the
slanted dict. -/
def get_slanted_avg_rating (h : ℕ → ℕ) (no_rating_fallback : ℚ)
    (cutoff : ℕ) : ℚ :=
  if ratings_total h < cutoff then no_rating_fallback
  else
    (((List.range 10).map
        (fun k => ((k + 1 : ℕ) : ℚ) * slanted_ratings h (k + 1))).sum)
      / (((List.range 10).map (fun k => slanted_ratings h (k + 1))).sum)
      * 0.5

/-- Spec-side slanted mean, from the spec's words: the weighted mean of the
histogram after the fixed multiplicative adjustments (bucket 1 ×1.2,
bucket 2 ×1.05, bucket 10 ×0.75), in half-star units (×0.5). -/
def spec_slanted_mean (h : ℕ → ℕ) : ℚ :=
  (∑ n ∈ Finset.Icc (1 : ℕ) 10, (n : ℚ) * slanted_ratings h n)
    / (∑ n ∈ Finset.Icc (1 : ℕ) 10, slanted_ratings h n) * 0.5

theorem sum_Icc_one_ten (f : ℕ → ℚ) :
    ∑ n ∈ Finset.Icc (1 : ℕ) 10, f n =
      f 1 + f 2 + f 3 + f 4 + f 5 + f 6 + f 7 + f 8 + f 9 + f 10 := by
  have he : Finset.Icc (1 : ℕ) 10 =
      ({1, 2, 3, 4, 5, 6, 7, 8, 9, 10} : Finset ℕ) := by
    decide
  rw [he, Finset.sum_insert (by decide), Finset.sum_insert (by decide),
    Finset.sum_insert (by decide), Finset.sum_insert (by decide),
    Finset.sum_insert (by decide), Finset.sum_insert (by decide),
    Finset.sum_insert (by decide), Finset.sum_insert (by decide),
    Finset.sum_insert (by decide), Finset.sum_singleton]
  ring

/-! ## Claim C6 -/

/-- C6: `get_slanted_avg_rating` returns exactly the fallback whenever the
total count is strictly below the cutoff, regardless of the histogram;
otherwise it returns the spec's slanted weighted mean (bucket 1 ×1.2,
bucket 2 ×1.05, bucket 10 ×0.75, result in half-star units). -/
theorem claim_C6_slanted_mean :
    ∀ (h : ℕ → ℕ) (fb : ℚ) (cutoff : ℕ),
      (ratings_total h < cutoff → get_slanted_avg_rating h fb cutoff = fb) ∧
        (cutoff ≤ ratings_total h →
          get_slanted_avg_rating h fb cutoff = spec_slanted_mean h) := by
  intro h fb cutoff
  constructor
  · intro hlt
    simp [get_slanted_avg_rating, hlt]
  · intro hge
    rw [get_slanted_avg_rating, if_neg (by omega)]
    have hnum : (((List.range 10).map
        (fun k => ((k + 1 : ℕ) : ℚ) * slanted_ratings h (k + 1))).sum) =
        ∑ n ∈ Finset.Icc (1 : ℕ) 10, (n : ℚ) * slanted_ratings h n := by
      rw [sum_Icc_one_ten]
      simp [List.range_succ]
      ring
    have hden : (((List.range 10).map
        (fun k => slanted_ratings h (k + 1))).sum) =
        ∑ n ∈ Finset.Icc (1 : ℕ) 10, slanted_ratings h n := by
      rw [sum_Icc_one_ten]
      simp [List.range_succ]
      ring
    rw [spec_slanted_mean, hnum, hden]

/-- Witness for C6, at `{1: 5, 2: 5}` with fallback 5 and cutoff 3. -/
theorem claim_C6_witness :
    get_slanted_avg_rating tie_histogram 5 3 =
      spec_slanted_mean tie_histogram :=
  (claim_C6_slanted_mean tie_histogram 5 3).2 (by decide)

/-! ## film_search.py: `FilmSearch.__call__` (src/film_search.py 109-152)

The page fetcher (an HTTP request plus markup parsing) is external, so it
enters the embedding as an abstract `fetch : ℕ → List α` returning the
records of one page.  `num_pages` (the site's total page count) is likewise
a parameter. -/

/-- The `while True` batching loop of `FilmSearch.__call__`: scrape pages
in bounded batches of 25 — `[start_page, start_page + 25)` and advance by
25 while `end_page > start_page + 25`, finally `[start_page, end_page)` —
extending `film_data` with each page's records in order. -/
def scrape_loop {α : Type} (fetch : ℕ → List α) (start_page end_page : ℕ) :
    List α :=
  if end_page ≤ start_page + 25 then
    ((List.range' start_page (end_page - start_page)).map fetch).flatten
  else
    ((List.range' start_page 25).map fetch).flatten ++
      scrape_loop fetch (start_page + 25) end_page
termination_by end_page - start_page
decreasing_by omega

/-- `FilmSearch.__call__(start_page, page_limit, percent)`:
`num_pages = ceil(self.num_pages * (percent/100))`; empty result if
`start_page > num_pages`; otherwise
`end_page = min(start_page + page_limit, num_pages+1) if page_limit else
num_pages+1` — note the Python truthiness test: both `None` *and* `0` take
the else branch — and the batched loop scrapes `[start_page, end_page)`. -/
def film_search_call {α : Type} (fetch : ℕ → List α) (total_pages : ℕ)
    (start_page : ℕ) (page_limit : Option ℕ) (percent : ℚ) : List α :=
  let num_pages : ℕ := ⌈(total_pages : ℚ) * (percent / 100)⌉₊
  if num_pages < start_page then []
  else
    let end_page :=
      match page_limit with
      | some pl =>
        if pl = 0 then num_pages + 1
        else min (start_page + pl) (num_pages + 1)
      | none => num_pages + 1
    scrape_loop fetch start_page end_page

theorem scrape_loop_eq_aux {α : Type} (fetch : ℕ → List α) :
    ∀ (fuel s e : ℕ), e - s ≤ fuel →
      scrape_loop fetch s e =
        ((List.range' s (e - s)).map fetch).flatten := by
  intro fuel
  induction fuel with
  | zero =>
    intro s e he
    rw [scrape_loop, if_pos (by omega)]
  | succ n ih =>
    intro s e he
    rw [scrape_loop]
    split_ifs with hle
    · rfl
    · rw [ih (s + 25) e (by omega)]
      rw [← List.flatten_append, ← List.map_append]
      congr 2
      rw [List.range'_append_1]
      congr 1
      omega

/-- The batching in groups of 25 does not change the result: the loop
produces exactly the concatenation of the pages `[s, e)` in order. -/
theorem scrape_loop_eq {α : Type} (fetch : ℕ → List α) (s e : ℕ) :
    scrape_loop fetch s e = ((List.range' s (e - s)).map fetch).flatten :=
  scrape_loop_eq_aux fetch (e - s) s e le_rfl

/-! ## Claim C7 -/

/-- C7: when `startPage` exceeds `availablePages = ceil(totalPages *
percent/100)`, `FilmSearch.__call__` returns the empty sequence (no error,
no page fetched); in particular `totalPages = 3, startPage = 5` yields
`[]`. -/
theorem claim_C7_start_beyond_available :
    (∀ (α : Type) (fetch : ℕ → List α) (total start : ℕ)
        (pl : Option ℕ) (pct : ℚ),
      ⌈(total : ℚ) * (pct / 100)⌉₊ < start →
        film_search_call fetch total start pl pct = []) ∧
    film_search_call (fun n => [n]) 3 5 none 100 = [] := by
  constructor
  · intro α fetch total start pl pct hlt
    simp only [film_search_call]
    rw [if_pos hlt]
  · simp only [film_search_call]
    rw [if_pos (by norm_num)]

/-- Witness for C7: 3 total pages, start page 5, full percentage. -/
theorem claim_C7_witness :
    film_search_call (fun n => [n]) 3 5 (some 2) 100 = ([] : List ℕ) :=
  claim_C7_start_beyond_available.1 ℕ (fun n => [n]) 3 5 (some 2) 100
    (by norm_num)

/-! ## Claim C8 -/

/-- C8 (counterexample): with 2 available pages, `startPage = 1` and
`pageLimit = 0`, the claimed bound `endPage = min(startPage + pageLimit,
availablePages + 1) = 1` would make the collection empty, but `0` is falsy
in Python, so `__call__` takes the no-limit branch and scrapes both
pages. -/
theorem claim_C8_counterexample :
    film_search_call (fun n => [n]) 2 1 (some 0) 100 = [1, 2] ∧
      ((List.range' 1
          (min (1 + 0) (⌈(2 : ℚ) * ((100 : ℚ) / 100)⌉₊ + 1) - 1)).map
        (fun n => [n])).flatten = ([] : List ℕ) := by
  constructor
  · have h2 : ⌈(2 : ℚ) * ((100 : ℚ) / 100)⌉₊ = 2 := by norm_num
    simp only [film_search_call, h2]
    rw [if_neg (by norm_num)]
    norm_num
    rw [scrape_loop_eq]
    norm_num [List.range']
  · norm_num

/-- C8 (amended): when `startPage ≤ availablePages`, `FilmSearch.__call__`
returns exactly the concatenation, in increasing page order, of the
records of the pages in `[startPage, endPage)` — each page fetched once,
page order and within-page order preserved, the batching in groups of 25
changing nothing — where `endPage = min(startPage + pageLimit,
availablePages + 1)` when a *nonzero* `pageLimit` is given and
`availablePages + 1` otherwise; a `pageLimit` of 0 is falsy in the code
and behaves exactly like an absent limit.  In particular with 10 pages and
`pageLimit = 2` from page 1 the result is page 1's records followed by
page 2's. -/
theorem claim_C8_collect_page_range :
    (∀ (α : Type) (fetch : ℕ → List α) (total start pl : ℕ) (pct : ℚ),
      pl ≠ 0 → start ≤ ⌈(total : ℚ) * (pct / 100)⌉₊ →
        film_search_call fetch total start (some pl) pct =
          ((List.range' start
              (min (start + pl) (⌈(total : ℚ) * (pct / 100)⌉₊ + 1)
                - start)).map fetch).flatten) ∧
    (∀ (α : Type) (fetch : ℕ → List α) (total start : ℕ) (pct : ℚ),
      start ≤ ⌈(total : ℚ) * (pct / 100)⌉₊ →
        film_search_call fetch total start none pct =
          ((List.range' start
              (⌈(total : ℚ) * (pct / 100)⌉₊ + 1 - start)).map
            fetch).flatten) ∧
    (∀ (α : Type) (fetch : ℕ → List α) (total start : ℕ) (pct : ℚ),
      film_search_call fetch total start (some 0) pct =
        film_search_call fetch total start none pct) ∧
    (∀ fetch : ℕ → List ℕ,
      film_search_call fetch 10 1 (some 2) 100 = fetch 1 ++ fetch 2) := by
  refine ⟨?_, ?_, ?_, ?_⟩
  · intro α fetch total start pl pct hpl hle
    simp only [film_search_call]
    rw [if_neg (by omega), if_neg hpl]
    exact scrape_loop_eq fetch start _
  · intro α fetch total start pct hle
    simp only [film_search_call]
    rw [if_neg (by omega)]
    exact scrape_loop_eq fetch start _
  · intro α fetch total start pct
    simp [film_search_call]
  · intro fetch
    have h10 : ⌈(10 : ℚ) * ((100 : ℚ) / 100)⌉₊ = 10 := by norm_num
    simp only [film_search_call, h10]
    rw [if_neg (by norm_num), if_neg (by norm_num)]
    rw [scrape_loop_eq]
    norm_num [List.range']

/-- Witness for C8: 10 pages, page limit 2, starting at page 1. -/
theorem claim_C8_witness :
    film_search_call (fun n => [n]) 10 1 (some 2) 100 = [1, 2] := by
  rw [claim_C8_collect_page_range.1 ℕ (fun n => [n]) 10 1 2 100
    (by norm_num) (by norm_num)]
  norm_num [List.range']

/-! ## list_maker.py: `MyMasterList.__init__` entry assembly -/

/-- The final-entry computation of `MyMasterList.__init__`
(src/list_maker.py lines 1012-1026): given the per-group merged entry
lists and the exclusion list, take
`pre_format = set(i for i in lists_merge([e_cl, e_i, e_s, e_u]) if i not
in exclude)`, then `sorted(pre_format, reverse=True)`, then
`format_entries` (the Python `set` is modelled by `dedup`; the subsequent
sort makes the set's iteration order irrelevant). -/
def master_list_entries (e_cl e_i e_s e_u exclude : List ℕ) : List Entry :=
  format_entries
    ((((lists_merge [e_cl, e_i, e_s, e_u]).filter
        (fun i => decide (i ∉ exclude))).dedup).insertionSort
      (fun a b => b ≤ a))

/-! ## Claim C9 -/

/-- C9: the master list's final entries are exactly the union of the four
source groups minus every key in the exclusion list, each key exactly
once, sorted by key in strictly descending numeric order. -/
theorem claim_C9_master_list_final :
    ∀ e_cl e_i e_s e_u exclude : List ℕ,
      (∀ k : ℕ,
        k ∈ (master_list_entries e_cl e_i e_s e_u exclude).map
            Entry.filmId ↔
          ((k ∈ e_cl ∨ k ∈ e_i ∨ k ∈ e_s ∨ k ∈ e_u) ∧ k ∉ exclude)) ∧
      ((master_list_entries e_cl e_i e_s e_u exclude).map
        Entry.filmId).Nodup ∧
      ((master_list_entries e_cl e_i e_s e_u exclude).map
        Entry.filmId).Sorted (· > ·) := by
  intro e_cl e_i e_s e_u exclude
  have hmap : (master_list_entries e_cl e_i e_s e_u exclude).map
      Entry.filmId =
      (((lists_merge [e_cl, e_i, e_s, e_u]).filter
          (fun i => decide (i ∉ exclude))).dedup).insertionSort
        (fun a b => b ≤ a) := by
    rw [master_list_entries, format_entries, List.map_map,
      show (Entry.filmId ∘ Entry.mk) = id from rfl, List.map_id]
  rw [hmap]
  set base := ((lists_merge [e_cl, e_i, e_s, e_u]).filter
    (fun i => decide (i ∉ exclude))).dedup with hbase
  have hperm : List.Perm (base.insertionSort (fun a b => b ≤ a)) base :=
    List.perm_insertionSort _ base
  have hnodup : (base.insertionSort (fun a b => b ≤ a)).Nodup :=
    hperm.nodup_iff.mpr (List.nodup_dedup _)
  refine ⟨?_, hnodup, ?_⟩
  · intro k
    rw [hperm.mem_iff, hbase, List.mem_dedup, List.mem_filter]
    simp [lists_merge]
  · have hsorted : (base.insertionSort (fun a b => b ≤ a)).Sorted
        (fun a b => b ≤ a) :=
      List.sorted_insertionSort _ base
    have hand := List.Pairwise.and hsorted hnodup
    exact hand.imp (by intro a b hab; omega)

/-! ## list_maker.py: `MyList.remove_duplicates` (lines 481-488) -/

/-- `MyList.remove_duplicates`, run by `MyList.__init__`: when
`len(entries) == len(set(entries))` nothing happens (`none` = no update
request is issued); otherwise the list is replaced wholesale by
`format_entries(set(entries))` (`some` = one full update with the
duplicate-free entries). -/
def remove_duplicates (entries : List ℕ) : Option (List Entry) :=
  if entries.length = entries.dedup.length then none
  else some (format_entries entries.dedup)

/-- The entries held by a `MyList` right after `__init__` ran
`remove_duplicates`: unchanged when no update was issued, else the
replacement entries. -/
def my_list_init_entries (entries : List ℕ) : List ℕ :=
  match remove_duplicates entries with
  | none => entries
  | some replacement => replacement.map Entry.filmId

theorem length_dedup_iff (entries : List ℕ) :
    entries.length = entries.dedup.length ↔ entries.Nodup := by
  constructor
  · intro hlen
    have hsub : entries.dedup.Sublist entries := List.dedup_sublist entries
    have heq : entries.dedup = entries := hsub.eq_of_length hlen.symm
    rw [← heq]
    exact List.nodup_dedup entries
  · intro hnd
    rw [hnd.dedup]

/-! ## Claim C10 -/

/-- C10: after `MyList.__init__`'s deduplication pass the entries hold
each film id at most once (and the same ids as before); when the loaded
entries are already duplicate-free no update is performed at all, and when
duplicates are present the pass issues one full update carrying a
duplicate-free replacement with the same ids. -/
theorem claim_C10_init_dedup :
    ∀ entries : List ℕ,
      (my_list_init_entries entries).Nodup ∧
      (∀ k, k ∈ my_list_init_entries entries ↔ k ∈ entries) ∧
      (entries.Nodup → remove_duplicates entries = none) ∧
      (¬ entries.Nodup →
        ∃ replacement, remove_duplicates entries = some replacement ∧
          (replacement.map Entry.filmId).Nodup ∧
          ∀ k, k ∈ replacement.map Entry.filmId ↔ k ∈ entries) := by
  intro entries
  have hmapdedup : (format_entries entries.dedup).map Entry.filmId =
      entries.dedup := by
    rw [format_entries, List.map_map,
      show (Entry.filmId ∘ Entry.mk) = id from rfl, List.map_id]
  refine ⟨?_, ?_, ?_, ?_⟩
  · rw [my_list_init_entries, remove_duplicates]
    split_ifs with hlen
    · exact (length_dedup_iff entries).mp hlen
    · simp only [hmapdedup]
      exact List.nodup_dedup entries
  · intro k
    rw [my_list_init_entries, remove_duplicates]
    split_ifs with hlen
    · rfl
    · simp only [hmapdedup]
      exact List.mem_dedup
  · intro hnd
    rw [remove_duplicates, if_pos ((length_dedup_iff entries).mpr hnd)]
  · intro hnd
    refine ⟨format_entries entries.dedup, ?_, ?_, ?_⟩
    · rw [remove_duplicates,
        if_neg (fun hlen => hnd ((length_dedup_iff entries).mp hlen))]
    · rw [hmapdedup]
      exact List.nodup_dedup entries
    · intro k
      rw [hmapdedup]
      exact List.mem_dedup

/-- Witness for C10: a duplicate-free load issues no update. -/
theorem claim_C10_witness :
    remove_duplicates [1, 2] = none :=
  (claim_C10_init_dedup [1, 2]).2.2.1 (by decide)

end LBScraper
